import Mathlib

/-!
# Verification of the pushpluck event-processing core

Shallow embedding of the parts of the `pushpluck` repository that the
specification's claims concern:

* `pushpluck/fretboard.py` — choke state machine (`ChokeGroup`,
  `ChokeNoteHandler`), note tracker (`NoteTracker`), velocity clamping and
  `Fretboard.trigger` / `Fretboard.handle_mapped_config`;
* `pushpluck/viewport.py` — pad ↔ string-position maps;
* `pushpluck/push.py` + `pushpluck/constants.py` — knob event decoding;
* `pushpluck/shadow.py` — diff-driven display driver;
* `pushpluck/menu.py` — knob accumulator and choice value ranges.

Machine integers are modelled as `Int`; Python `Optional` as `Option`;
Python exceptions (`KeyError` from `set.remove` / `dict[...]`,
`IndexError` from list indexing) as `Except PyErr`.
-/

namespace Pushpluck

/-- Python exceptions that the modelled code can raise. -/
inductive PyErr where
  | keyError : PyErr
  | indexError : PyErr
  deriving DecidableEq, Repr

/-- Association-list lookup, mirroring Python `dict.get`: the value of the
first matching key. -/
def alistLookup {κ α : Type} [DecidableEq κ] : List (κ × α) → κ → Option α
  | [], _ => none
  | (k, v) :: rest, key => if k = key then some v else alistLookup rest key

/-- Association-list update, mirroring Python `d[k] = v`: replaces the
first binding of `k` in place, else appends (dicts are insertion-ordered). -/
def alistSet {κ α : Type} [DecidableEq κ] : List (κ × α) → κ → α → List (κ × α)
  | [], key, v => [(key, v)]
  | (k, w) :: rest, key, v =>
      if k = key then (k, v) :: rest else (k, w) :: alistSet rest key v

/-- Association-list deletion, mirroring Python `del d[k]` (first binding). -/
def alistDel {κ α : Type} [DecidableEq κ] : List (κ × α) → κ → List (κ × α)
  | [], _ => []
  | (k, w) :: rest, key => if k = key then rest else (k, w) :: alistDel rest key

/-! ## Data model (`fretboard.py`, `config.py`, `pos.py`) -/

/-- `config.VisState`. -/
inductive VisState where
  | Off | OnPrimary | OnDisabled | OnLinked
  deriving DecidableEq, Repr

/-- `VisState.primary`. -/
def VisState.primary (v : VisState) : Bool := v = VisState.OnPrimary

/-- `VisState.active`. -/
def VisState.active (v : VisState) : Bool := ¬ v = VisState.Off

/-- `VisState.enabled`. -/
def VisState.enabled (v : VisState) : Bool := ¬ v = VisState.OnDisabled

/-- `fretboard.StringPos`: string index and (possibly negative) fret. -/
structure StringPos where
  str_index : Int
  fret : Int
  deriving DecidableEq, Repr

/-- `pos.Pos`: pad grid coordinates. -/
structure Pos where
  row : Int
  col : Int
  deriving DecidableEq, Repr

/-- A mido `FrozenMessage(type='note_on', channel, note, velocity)`.
Every message the fretboard engine constructs or records has type
`note_on` (note-off is note-on with velocity 0), so the type tag is
left implicit. -/
structure Msg where
  channel : Int
  note : Int
  velocity : Int
  deriving DecidableEq, Repr

/-- `midi.is_note_on_msg`: a `note_on`-typed message with velocity > 0. -/
def isNoteOnMsg (m : Msg) : Bool := 0 < m.velocity

/-- Modelled from the spec: `is_note_off_msg` is imported by
`fretboard.py` from `pushpluck.midi` but has no definition under the
source tree; the spec states "note-off (note-on with velocity 0 is
treated as off)", so for the `note_on`-typed messages the fretboard
constructs it tests velocity 0. -/
def isNoteOffMsg (m : Msg) : Bool := m.velocity = 0

/-- `fretboard.NoteGroup`. -/
structure NoteGroup where
  note : Int
  primary : Option StringPos
  equivs : List StringPos
  deriving DecidableEq, Repr

/-- `fretboard.FretboardMessage`. -/
structure FretboardMessage where
  str_pos : StringPos
  equivs : List StringPos
  msg : Msg
  deriving DecidableEq, Repr

/-- `FretboardMessage.note`. -/
def FretboardMessage.note (fm : FretboardMessage) : Int := fm.msg.note

/-- `FretboardMessage.channel`. -/
def FretboardMessage.channel (fm : FretboardMessage) : Int := fm.msg.channel

/-- `FretboardMessage.is_note_on`. -/
def FretboardMessage.isNoteOn (fm : FretboardMessage) : Bool := isNoteOnMsg fm.msg

/-- `FretboardMessage.is_note_off`. -/
def FretboardMessage.isNoteOff (fm : FretboardMessage) : Bool := isNoteOffMsg fm.msg

/-- `FretboardMessage.make_note_msg`: same position/equivs, fresh
`note_on` message with the given velocity. -/
def FretboardMessage.makeNoteMsg (fm : FretboardMessage) (velocity : Int) : FretboardMessage :=
  ⟨fm.str_pos, fm.equivs, ⟨fm.msg.channel, fm.msg.note, velocity⟩⟩

/-- `FretboardMessage.make_note_off_msg`. -/
def FretboardMessage.makeNoteOffMsg (fm : FretboardMessage) : FretboardMessage :=
  fm.makeNoteMsg 0

/-! ## Choke state machine (`fretboard.ChokeGroup`, `fretboard.ChokeNoteHandler`) -/

/-- `bisect.bisect_left` specialised to the (sorted) `note_order` list:
the leftmost insertion point for `n`, i.e. the index of the first
element that is `≥ n`.  (The Python binary search computes exactly this
on the sorted lists `ChokeGroup` maintains.) -/
def bisectLeft : List Int → Int → Nat
  | [], _ => 0
  | x :: xs, n => if x < n then bisectLeft xs n + 1 else 0

/-- `fretboard.ChokeGroup`: ordered list of held notes plus the map
`note → FretboardMessage` of the last activating event (the Python dict
is modelled as a function to `Option`). -/
structure ChokeGroup where
  note_order : List Int
  note_info : Int → Option FretboardMessage

/-- `ChokeGroup.empty`. -/
def ChokeGroup.empty : ChokeGroup := ⟨[], fun _ => none⟩

/-- `ChokeGroup.max_msg`: the recorded event for the highest held note.
(The Python `note_info[max_note]` indexing assumes the key is present,
which the invariant `note_info` keys = `note_order` guarantees; a
missing key yields `none` here.) -/
def ChokeGroup.maxMsg (g : ChokeGroup) : Option FretboardMessage :=
  g.note_order.getLast?.bind g.note_info

/-- `ChokeGroup.trigger`: insert/replace on note-on, remove on note-off. -/
def ChokeGroup.trigger (g : ChokeGroup) (fm : FretboardMessage) : ChokeGroup :=
  let noteIndex := bisectLeft g.note_order fm.note
  let noteExists := g.note_order[noteIndex]? = some fm.note
  if fm.isNoteOn then
    { note_order := if noteExists then g.note_order
                    else g.note_order.insertIdx noteIndex fm.note
      note_info := fun n => if n = fm.note then some fm else g.note_info n }
  else
    { note_order := if noteExists then g.note_order.eraseIdx noteIndex
                    else g.note_order
      note_info := fun n => if n = fm.note then none else g.note_info n }

/-- `fretboard.ChokeNoteHandler.trigger` for a single string's group:
compares the held maximum before and after updating the group and
emits the corresponding note on/offs.  Returns the updated group and
the emitted messages. -/
def chokeTrigger (g : ChokeGroup) (fm : FretboardMessage) :
    ChokeGroup × List FretboardMessage :=
  let prevMsg := g.maxMsg
  let g' := g.trigger fm
  let curMsg := g'.maxMsg
  let outMsgs : List FretboardMessage :=
    match curMsg, prevMsg with
    | none, none => []
    | none, some p => [p.makeNoteOffMsg]
    | some c, none => [c]
    | some c, some p => if p = c then [] else [c, p.makeNoteOffMsg]
  (g', outMsgs)

/-- Well-formedness of a `ChokeGroup`, the invariant the spec states:
`note_order` is strictly ascending, `note_info` is defined exactly on
the held notes, and every recorded event is the note-on that activated
its note. -/
def ChokeGroup.wf (g : ChokeGroup) : Prop :=
  g.note_order.Sorted (· < ·) ∧
  (∀ n ∈ g.note_order, ∃ m, g.note_info n = some m ∧ m.note = n ∧ 0 < m.msg.velocity) ∧
  (∀ n, n ∉ g.note_order → g.note_info n = none)

/-! ### Lemmas about `bisectLeft` and sorted note lists -/

theorem bisectLeft_le_length (l : List Int) (n : Int) : bisectLeft l n ≤ l.length := by
  induction l with
  | nil => simp [bisectLeft]
  | cons x xs ih =>
    simp only [bisectLeft, List.length_cons]
    split <;> omega

theorem bisectLeft_eq_length (l : List Int) (n : Int) (h : ∀ x ∈ l, x < n) :
    bisectLeft l n = l.length := by
  induction l with
  | nil => rfl
  | cons x xs ih =>
    simp only [bisectLeft, List.length_cons]
    rw [if_pos (h x (List.mem_cons_self x xs)),
      ih (fun y hy => h y (List.mem_cons_of_mem x hy))]

theorem bisectLeft_lt_length (l : List Int) (n x : Int) (hx : x ∈ l) (hge : n ≤ x) :
    bisectLeft l n < l.length := by
  induction l with
  | nil => cases hx
  | cons y ys ih =>
    simp only [bisectLeft, List.length_cons]
    split
    · rename_i hlt
      rcases List.mem_cons.mp hx with h | h
      · omega
      · exact Nat.succ_lt_succ (ih h)
    · omega

theorem get?_bisectLeft_of_mem (l : List Int) (n : Int)
    (hs : l.Sorted (· < ·)) (hm : n ∈ l) :
    l[bisectLeft l n]? = some n := by
  induction l with
  | nil => cases hm
  | cons x xs ih =>
    rcases List.mem_cons.mp hm with h | h
    · subst h
      simp [bisectLeft]
    · have hx : x < n := (List.sorted_cons.mp hs).1 n h
      simp only [bisectLeft, if_pos hx, List.getElem?_cons_succ]
      exact ih (List.sorted_cons.mp hs).2 h

theorem mem_of_get?_eq_some {l : List Int} {i : Nat} {n : Int}
    (h : l[i]? = some n) : n ∈ l := by
  rcases List.getElem?_eq_some.mp h with ⟨hi, heq⟩
  exact heq ▸ List.getElem_mem hi

/-- For a sorted group, the "note exists" test in `ChokeGroup.trigger`
is exactly membership. -/
theorem noteExists_iff_mem (l : List Int) (n : Int) (hs : l.Sorted (· < ·)) :
    l[bisectLeft l n]? = some n ↔ n ∈ l :=
  ⟨mem_of_get?_eq_some, get?_bisectLeft_of_mem l n hs⟩

theorem sorted_insertIdx_bisectLeft (l : List Int) (n : Int)
    (hs : l.Sorted (· < ·)) (hn : n ∉ l) :
    (l.insertIdx (bisectLeft l n) n).Sorted (· < ·) := by
  induction l with
  | nil => simp [bisectLeft]
  | cons x xs ih =>
    rcases List.sorted_cons.mp hs with ⟨hx, hxs⟩
    by_cases hlt : x < n
    · simp only [bisectLeft, if_pos hlt, List.insertIdx_succ_cons]
      refine List.sorted_cons.mpr ⟨?_, ih hxs (fun h => hn (List.mem_cons_of_mem x h))⟩
      intro b hb
      rcases (List.mem_insertIdx (bisectLeft_le_length xs n)).mp hb with h | h
      · omega
      · exact hx b h
    · have hne : n ≠ x := fun h => hn (h ▸ List.mem_cons_self x xs)
      have hnx : n < x := by omega
      simp only [bisectLeft, if_neg hlt, List.insertIdx_zero]
      refine List.sorted_cons.mpr ⟨?_, hs⟩
      intro b hb
      rcases List.mem_cons.mp hb with h | h
      · omega
      · exact lt_trans hnx (hx b h)

theorem getLast?_insertIdx_of_lt {α : Type} (l : List α) (a : α) (i : Nat)
    (h : i < l.length) :
    (l.insertIdx i a).getLast? = l.getLast? := by
  have hlen : (l.insertIdx i a).length = l.length + 1 :=
    List.length_insertIdx i l (Nat.le_of_lt h)
  rw [List.getLast?_eq_getElem?, List.getLast?_eq_getElem?, hlen]
  obtain ⟨k, hk⟩ : ∃ k, k = l.length - 1 - i := ⟨_, rfl⟩
  have e1 : l.length + 1 - 1 = i + k + 1 := by omega
  have e2 : l.length - 1 = i + k := by omega
  rw [e1, e2]
  rw [List.getElem?_eq_getElem (by omega), List.getElem?_eq_getElem (by omega)]
  exact congrArg some (List.getElem_insertIdx_add_succ l a i k (by omega))

theorem getLast?_insertIdx_length (l : List Int) (n : Int) :
    (l.insertIdx l.length n).getLast? = some n := by
  rw [List.insertIdx_length_self, List.getLast?_concat]

theorem mem_eraseIdx_of_ne {l : List Int} {i : Nat} {n k : Int}
    (hi : l[i]? = some n) (hk : k ∈ l) (hne : k ≠ n) :
    k ∈ l.eraseIdx i := by
  rcases List.getElem?_eq_some.mp hi with ⟨hilen, hieq⟩
  rcases List.mem_iff_getElem.mp hk with ⟨j, hj, hjeq⟩
  have hji : j ≠ i := by
    intro h
    subst h
    exact hne (by rw [← hjeq, hieq])
  rw [List.eraseIdx_eq_take_drop_succ]
  rcases Nat.lt_or_ge j i with hlt | hge
  · exact List.mem_append.mpr
      (Or.inl (List.mem_take_iff_getElem.mpr ⟨j, by omega, hjeq⟩))
  · refine List.mem_append.mpr
      (Or.inr (List.mem_drop_iff_getElem.mpr ⟨j - (i + 1), by omega, ?_⟩))
    have harg : (i + 1) + (j - (i + 1)) = j := by omega
    simp only [harg]
    exact hjeq

theorem sorted_eraseIdx {l : List Int} (i : Nat) (hs : l.Sorted (· < ·)) :
    (l.eraseIdx i).Sorted (· < ·) :=
  hs.sublist (List.eraseIdx_sublist l i)

theorem mem_of_getLast?_eq_some {α : Type} {l : List α} {a : α}
    (h : l.getLast? = some a) : a ∈ l := by
  rw [List.getLast?_eq_getElem?] at h
  rcases List.getElem?_eq_some.mp h with ⟨hlen, heq⟩
  exact heq ▸ List.getElem_mem hlen

theorem le_getLast_of_sorted {l : List Int} (hs : l.Sorted (· < ·)) {mx : Int}
    (hlast : l.getLast? = some mx) : ∀ x ∈ l, x ≤ mx := by
  intro x hx
  rcases List.mem_iff_getElem.mp hx with ⟨j, hj, rfl⟩
  rw [List.getLast?_eq_getElem?] at hlast
  rcases List.getElem?_eq_some.mp hlast with ⟨hlen, hmx⟩
  rcases Nat.lt_or_ge j (l.length - 1) with hlt | hge
  · have hrel := hs.rel_get_of_lt
      (a := ⟨j, hj⟩) (b := ⟨l.length - 1, hlen⟩) (Fin.mk_lt_mk.mpr hlt)
    rw [List.get_eq_getElem, List.get_eq_getElem] at hrel
    simp only at hrel
    rw [hmx] at hrel
    exact le_of_lt hrel
  · have hje : j = l.length - 1 := by omega
    subst hje
    rw [hmx]

theorem not_mem_eraseIdx_self {l : List Int} {i : Nat} {n : Int}
    (hnd : l.Nodup) (hi : l[i]? = some n) : n ∉ l.eraseIdx i := by
  rcases List.getElem?_eq_some.mp hi with ⟨hilen, hieq⟩
  intro hmem
  rw [List.eraseIdx_eq_take_drop_succ] at hmem
  rcases List.mem_append.mp hmem with h | h
  · rcases List.mem_take_iff_getElem.mp h with ⟨j, hj, hjeq⟩
    have hj' : j < l.length := by
      rcases lt_min_iff.mp hj with ⟨_, h2⟩
      exact h2
    have : j = i := (hnd.getElem_inj_iff).mp (by rw [hjeq, hieq])
    rcases lt_min_iff.mp hj with ⟨h1, _⟩
    omega
  · rcases List.mem_drop_iff_getElem.mp h with ⟨j, hj, hjeq⟩
    have : (i + 1) + j = i := (hnd.getElem_inj_iff).mp (by rw [hjeq, hieq])
    omega

/-! ### Well-formedness is preserved by `ChokeGroup.trigger` -/

theorem isNoteOn_velocity {fm : FretboardMessage} (h : fm.isNoteOn = true) :
    0 < fm.msg.velocity := by
  simpa [FretboardMessage.isNoteOn, isNoteOnMsg] using h

theorem wf_trigger {g : ChokeGroup} (hwf : g.wf) (fm : FretboardMessage) :
    (g.trigger fm).wf := by
  obtain ⟨hs, hsome, hnone⟩ := hwf
  unfold ChokeGroup.trigger
  by_cases hon : fm.isNoteOn = true
  · simp only [hon, if_true]
    by_cases hex : g.note_order[bisectLeft g.note_order fm.note]? = some fm.note
    · have hmem : fm.note ∈ g.note_order := mem_of_get?_eq_some hex
      refine ⟨by simpa [hex] using hs, ?_, ?_⟩
      · intro n hn
        simp only [hex, if_true] at hn ⊢
        by_cases hne : n = fm.note
        · subst hne
          exact ⟨fm, by simp, rfl, isNoteOn_velocity hon⟩
        · rcases hsome n hn with ⟨m, hm, hmn, hmv⟩
          exact ⟨m, by simp [hne, hm], hmn, hmv⟩
      · intro n hn
        simp only [hex, if_true] at hn ⊢
        have hne : n ≠ fm.note := fun h => hn (h ▸ hmem)
        simp [hne, hnone n hn]
    · have hnm : fm.note ∉ g.note_order := fun h =>
        hex (get?_bisectLeft_of_mem _ _ hs h)
      have hle := bisectLeft_le_length g.note_order fm.note
      refine ⟨?_, ?_, ?_⟩
      · simpa [hex] using sorted_insertIdx_bisectLeft _ _ hs hnm
      · intro n hn
        simp only [hex, if_false] at hn ⊢
        rcases (List.mem_insertIdx hle).mp hn with h | h
        · subst h
          exact ⟨fm, by simp, rfl, isNoteOn_velocity hon⟩
        · have hne : n ≠ fm.note := fun he => hnm (he ▸ h)
          rcases hsome n h with ⟨m, hm, hmn, hmv⟩
          exact ⟨m, by simp [hne, hm], hmn, hmv⟩
      · intro n hn
        simp only [hex, if_false] at hn ⊢
        have h1 : n ≠ fm.note := by
          intro he
          refine hn ?_
          rw [he]
          exact (List.mem_insertIdx hle).mpr (Or.inl rfl)
        have h2 : n ∉ g.note_order := fun he =>
          hn ((List.mem_insertIdx hle).mpr (Or.inr he))
        simp [h1, hnone n h2]
  · simp only [hon, if_false]
    by_cases hex : g.note_order[bisectLeft g.note_order fm.note]? = some fm.note
    · have hnd : g.note_order.Nodup := hs.nodup
      have hout : fm.note ∉ g.note_order.eraseIdx (bisectLeft g.note_order fm.note) :=
        not_mem_eraseIdx_self hnd hex
      refine ⟨by simpa [hex] using sorted_eraseIdx _ hs, ?_, ?_⟩
      · intro n hn
        simp only [hex, if_true] at hn ⊢
        have hmm : n ∈ g.note_order :=
          (List.eraseIdx_sublist _ _).mem hn
        have hne : n ≠ fm.note := fun he => hout (he ▸ hn)
        rcases hsome n hmm with ⟨m, hm, hmn, hmv⟩
        exact ⟨m, by simp [hne, hm], hmn, hmv⟩
      · intro n hn
        simp only [hex, if_true] at hn ⊢
        by_cases hne : n = fm.note
        · simp [hne]
        · have h2 : n ∉ g.note_order := fun he =>
            hn (mem_eraseIdx_of_ne hex he hne)
          simp [hne, hnone n h2]
    · have hnm : fm.note ∉ g.note_order := fun h =>
        hex (get?_bisectLeft_of_mem _ _ hs h)
      refine ⟨by simpa [hex] using hs, ?_, ?_⟩
      · intro n hn
        simp only [hex, if_false] at hn ⊢
        have hne : n ≠ fm.note := fun he => hnm (he ▸ hn)
        rcases hsome n hn with ⟨m, hm, hmn, hmv⟩
        exact ⟨m, by simp [hne, hm], hmn, hmv⟩
      · intro n hn
        simp only [hex, if_false] at hn ⊢
        by_cases hne : n = fm.note
        · simp [hne]
        · simp [hne, hnone n hn]

/-- Under well-formedness the group maximum exists iff some note is held,
and it is the recorded note-on for the largest held note. -/
theorem maxMsg_spec {g : ChokeGroup} (hwf : g.wf) {mx : Int}
    (hlast : g.note_order.getLast? = some mx) :
    ∃ p, g.maxMsg = some p ∧ p.note = mx ∧ 0 < p.msg.velocity := by
  have hmem : mx ∈ g.note_order := mem_of_getLast?_eq_some hlast
  rcases hwf.2.1 mx hmem with ⟨p, hp, hpn, hpv⟩
  exact ⟨p, by simp [ChokeGroup.maxMsg, hlast, hp], hpn, hpv⟩

theorem maxMsg_eq_none_iff {g : ChokeGroup} (hwf : g.wf) :
    g.maxMsg = none ↔ g.note_order = [] := by
  constructor
  · intro h
    by_contra hne
    have : g.note_order.getLast?.isSome = true := List.getLast?_isSome.mpr hne
    rcases Option.isSome_iff_exists.mp this with ⟨mx, hmx⟩
    rcases maxMsg_spec ⟨hwf.1, hwf.2.1, hwf.2.2⟩ hmx with ⟨p, hp, _, _⟩
    rw [h] at hp
    cases hp
  · intro h
    simp [ChokeGroup.maxMsg, h]

/-! ### Unfolding lemmas for `chokeTrigger` -/

theorem chokeTrigger_fst (g : ChokeGroup) (fm : FretboardMessage) :
    (chokeTrigger g fm).1 = g.trigger fm := rfl

theorem chokeTrigger_snd (g : ChokeGroup) (fm : FretboardMessage) :
    (chokeTrigger g fm).2 =
      match (g.trigger fm).maxMsg, g.maxMsg with
      | none, none => []
      | none, some p => [p.makeNoteOffMsg]
      | some c, none => [c]
      | some c, some p => if p = c then [] else [c, p.makeNoteOffMsg] := rfl

theorem trigger_note_info_on {g : ChokeGroup} {fm : FretboardMessage}
    (hon : fm.isNoteOn = true) :
    (g.trigger fm).note_info =
      fun n => if n = fm.note then some fm else g.note_info n := by
  simp [ChokeGroup.trigger, hon]

theorem trigger_note_info_off {g : ChokeGroup} {fm : FretboardMessage}
    (hoff : ¬ fm.isNoteOn = true) :
    (g.trigger fm).note_info =
      fun n => if n = fm.note then none else g.note_info n := by
  simp [ChokeGroup.trigger, hoff]

theorem trigger_on_order_of_mem {g : ChokeGroup} {fm : FretboardMessage}
    (hon : fm.isNoteOn = true) (hs : g.note_order.Sorted (· < ·))
    (hm : fm.note ∈ g.note_order) :
    (g.trigger fm).note_order = g.note_order := by
  simp [ChokeGroup.trigger, hon, if_pos (get?_bisectLeft_of_mem _ _ hs hm)]

theorem trigger_on_order_of_not_mem {g : ChokeGroup} {fm : FretboardMessage}
    (hon : fm.isNoteOn = true) (hm : fm.note ∉ g.note_order) :
    (g.trigger fm).note_order =
      g.note_order.insertIdx (bisectLeft g.note_order fm.note) fm.note := by
  have hex : ¬ (g.note_order[bisectLeft g.note_order fm.note]? = some fm.note) :=
    fun h => hm (mem_of_get?_eq_some h)
  simp [ChokeGroup.trigger, hon, hex]

theorem trigger_off_order_of_mem {g : ChokeGroup} {fm : FretboardMessage}
    (hoff : ¬ fm.isNoteOn = true) (hs : g.note_order.Sorted (· < ·))
    (hm : fm.note ∈ g.note_order) :
    (g.trigger fm).note_order =
      g.note_order.eraseIdx (bisectLeft g.note_order fm.note) := by
  simp [ChokeGroup.trigger, hoff, if_pos (get?_bisectLeft_of_mem _ _ hs hm)]

theorem trigger_off_order_of_not_mem {g : ChokeGroup} {fm : FretboardMessage}
    (hoff : ¬ fm.isNoteOn = true) (hm : fm.note ∉ g.note_order) :
    (g.trigger fm).note_order = g.note_order := by
  have hex : ¬ (g.note_order[bisectLeft g.note_order fm.note]? = some fm.note) :=
    fun h => hm (mem_of_get?_eq_some h)
  simp [ChokeGroup.trigger, hoff, hex]

theorem maxMsg_of_getLast? {g : ChokeGroup} {mx : Int}
    (h : g.note_order.getLast? = some mx) : g.maxMsg = g.note_info mx := by
  simp [ChokeGroup.maxMsg, h]

/-! ## Claim C1: choke note-on rule -/

/-- **C1.** Choke note-on rule (`ChokeNoteHandler.trigger` /
`ChokeGroup.trigger`, fretboard.py).  For every well-formed per-string
choke group and every incoming note-on for note `n` (velocity > 0):
if no note was previously held the handler emits exactly the note-on;
if `n` is greater than the previously held maximum it emits the note-on
for `n` followed by the note-off for the previous maximum, in that
order; and if `n` is below the current maximum it emits nothing. -/
theorem choke_note_on_rule (g : ChokeGroup) (fm : FretboardMessage)
    (hwf : g.wf) (hv : 0 < fm.msg.velocity) :
    (g.note_order = [] → (chokeTrigger g fm).2 = [fm]) ∧
    (∀ mx p, g.note_order.getLast? = some mx → g.maxMsg = some p →
      (mx < fm.note → (chokeTrigger g fm).2 = [fm, p.makeNoteOffMsg]) ∧
      (fm.note < mx → (chokeTrigger g fm).2 = [])) := by
  have hon : fm.isNoteOn = true := by
    simp [FretboardMessage.isNoteOn, isNoteOnMsg, hv]
  obtain ⟨hs, hsome, hnone⟩ := hwf
  constructor
  · intro hempty
    have hnm : fm.note ∉ g.note_order := by simp [hempty]
    have horder : (g.trigger fm).note_order = [fm.note] := by
      rw [trigger_on_order_of_not_mem hon hnm, hempty]
      simp [bisectLeft]
    have hcur : (g.trigger fm).maxMsg = some fm := by
      rw [ChokeGroup.maxMsg, horder, trigger_note_info_on hon]
      simp
    have hprev : g.maxMsg = none := by
      simp [ChokeGroup.maxMsg, hempty]
    rw [chokeTrigger_snd, hcur, hprev]
  · intro mx p hlast hp
    have hpinfo : g.note_info mx = some p := by
      rw [← maxMsg_of_getLast? hlast]; exact hp
    have hpmem : mx ∈ g.note_order := mem_of_getLast?_eq_some hlast
    have hpn : p.note = mx := by
      rcases hsome mx hpmem with ⟨m, hm, hmn, _⟩
      rw [hpinfo] at hm
      cases hm
      exact hmn
    constructor
    · intro hlt
      have hallt : ∀ x ∈ g.note_order, x < fm.note := fun x hx =>
        lt_of_le_of_lt (le_getLast_of_sorted hs hlast x hx) hlt
      have hnm : fm.note ∉ g.note_order := fun h => lt_irrefl _ (hallt _ h)
      have horder : (g.trigger fm).note_order = g.note_order ++ [fm.note] := by
        rw [trigger_on_order_of_not_mem hon hnm,
          bisectLeft_eq_length _ _ hallt, List.insertIdx_length_self]
      have hcur : (g.trigger fm).maxMsg = some fm := by
        rw [ChokeGroup.maxMsg, horder, List.getLast?_concat, trigger_note_info_on hon]
        simp
      have hpf : p ≠ fm := by
        intro h
        rw [h] at hpn
        omega
      rw [chokeTrigger_snd, hcur, hp]
      simp [hpf]
    · intro hgt
      have hgl : (g.trigger fm).note_order.getLast? = some mx := by
        by_cases hm : fm.note ∈ g.note_order
        · rw [trigger_on_order_of_mem hon hs hm]
          exact hlast
        · rw [trigger_on_order_of_not_mem hon hm]
          rw [getLast?_insertIdx_of_lt _ _ _
            (bisectLeft_lt_length _ _ mx hpmem (le_of_lt hgt))]
          exact hlast
      have hcur : (g.trigger fm).maxMsg = some p := by
        rw [maxMsg_of_getLast? hgl, trigger_note_info_on hon]
        have : mx ≠ fm.note := by omega
        simp [this, hpinfo]
      rw [chokeTrigger_snd, hcur, hp]
      simp

/-! ## Claim C2: choke note-off (pull-off) rule -/

/-- Concrete string positions and messages used in witness scenarios
(the spec's hammer-on / pull-off example on string 0). -/
def spA : StringPos := ⟨0, 1⟩

def spB : StringPos := ⟨0, 3⟩

def mOn41 : FretboardMessage := ⟨spA, [spA], ⟨0, 41, 90⟩⟩

def mOn43 : FretboardMessage := ⟨spB, [spB], ⟨0, 43, 95⟩⟩

def mOff43 : FretboardMessage := ⟨spB, [spB], ⟨0, 43, 0⟩⟩

/-- A choke group holding notes 41 and 43 (41 pressed, then 43). -/
def gHeld : ChokeGroup :=
  ⟨[41, 43], fun n =>
    if n = 41 then some mOn41 else if n = 43 then some mOn43 else none⟩

/-- **C2, counterexample.**  With notes 41 and 43 held, a note-off for
the current maximum 43 makes `ChokeNoteHandler.trigger` emit the
note-ON for the new maximum 41 first and the note-off for 43 second —
not off-then-on as the claim states. -/
theorem choke_note_off_order_counterexample :
    (chokeTrigger gHeld mOff43).2 = [mOn41, mOn43.makeNoteOffMsg] ∧
    (chokeTrigger gHeld mOff43).2 ≠ [mOn43.makeNoteOffMsg, mOn41] := by
  constructor
  · decide
  · decide

/-- For a well-formed group, the group maximum is always a note-on. -/
theorem maxMsg_velocity {g : ChokeGroup} (hwf : g.wf) {c : FretboardMessage}
    (h : g.maxMsg = some c) : 0 < c.msg.velocity := by
  rw [ChokeGroup.maxMsg] at h
  cases hl : g.note_order.getLast? with
  | none => rw [hl] at h; cases h
  | some mx =>
    rw [hl] at h
    simp only [Option.some_bind] at h
    rcases hwf.2.1 mx (mem_of_getLast?_eq_some hl) with ⟨m, hm, _, hmv⟩
    rw [h] at hm
    cases hm
    exact hmv

/-- The bisection point of the maximum of a sorted list is its last index. -/
theorem bisectLeft_getLast {l : List Int} {mx : Int}
    (hs : l.Sorted (· < ·)) (hlast : l.getLast? = some mx) :
    bisectLeft l mx = l.length - 1 := by
  have hmem : mx ∈ l := mem_of_getLast?_eq_some hlast
  have hget := get?_bisectLeft_of_mem l mx hs hmem
  rcases List.getElem?_eq_some.mp hget with ⟨hlt, heq⟩
  rw [List.getLast?_eq_getElem?] at hlast
  rcases List.getElem?_eq_some.mp hlast with ⟨hlt2, heq2⟩
  exact (hs.nodup.getElem_inj_iff).mp (by rw [heq, heq2])

/-- **C2 (amended).**  Choke note-off (pull-off) rule as the code
implements it: when a note-off arrives for the currently highest held
note while lower notes remain held, the handler emits the note-ON for
the new maximum FIRST and then the note-off for the previous maximum
(the same on-before-off ordering as hammer-ons, preserving envelope
overlap); when the group becomes empty it emits only the note-off for
the previous maximum; and a note-off for a note not in the group emits
nothing. -/
theorem choke_note_off_rule (g : ChokeGroup) (fm : FretboardMessage)
    (hwf : g.wf) (hv : fm.msg.velocity = 0) :
    (∀ mx p, g.note_order.getLast? = some mx → g.maxMsg = some p →
      fm.note = mx → 2 ≤ g.note_order.length →
      ∃ q, (chokeTrigger g fm).1.maxMsg = some q ∧ q.note < mx ∧
        (chokeTrigger g fm).2 = [q, p.makeNoteOffMsg]) ∧
    (∀ p, g.note_order = [fm.note] → g.maxMsg = some p →
      (chokeTrigger g fm).2 = [p.makeNoteOffMsg]) ∧
    (fm.note ∉ g.note_order → (chokeTrigger g fm).2 = []) := by
  have hoff : ¬ fm.isNoteOn = true := by
    simp [FretboardMessage.isNoteOn, isNoteOnMsg, hv]
  obtain ⟨hs, hsome, hnone⟩ := hwf
  refine ⟨?_, ?_, ?_⟩
  · intro mx p hlast hp heq hlen
    have hm : fm.note ∈ g.note_order := heq ▸ mem_of_getLast?_eq_some hlast
    have hpinfo : g.note_info mx = some p := by
      rw [← maxMsg_of_getLast? hlast]; exact hp
    have hpn : p.note = mx := by
      rcases hsome mx (mem_of_getLast?_eq_some hlast) with ⟨m, hm', hmn, _⟩
      rw [hpinfo] at hm'
      cases hm'
      exact hmn
    have hget : g.note_order[bisectLeft g.note_order fm.note]? = some fm.note :=
      get?_bisectLeft_of_mem _ _ hs hm
    have hnotmem : fm.note ∉
        g.note_order.eraseIdx (bisectLeft g.note_order fm.note) :=
      not_mem_eraseIdx_self hs.nodup hget
    have horder2 : (g.trigger fm).note_order =
        g.note_order.eraseIdx (bisectLeft g.note_order fm.note) :=
      trigger_off_order_of_mem hoff hs hm
    have hbis : bisectLeft g.note_order fm.note = g.note_order.length - 1 := by
      rw [heq]; exact bisectLeft_getLast hs hlast
    have hlen' : (g.trigger fm).note_order.length = g.note_order.length - 1 := by
      rw [horder2, hbis]
      have := List.length_eraseIdx_add_one
        (l := g.note_order) (i := g.note_order.length - 1) (by omega)
      omega
    have hne' : (g.trigger fm).note_order ≠ [] := by
      intro h
      rw [h] at hlen'
      simp only [List.length_nil] at hlen'
      omega
    rcases Option.isSome_iff_exists.mp (List.getLast?_isSome.mpr hne') with ⟨nl, hnl⟩
    have hnlmem : nl ∈ (g.trigger fm).note_order := mem_of_getLast?_eq_some hnl
    have hnlmem0 : nl ∈ g.note_order := by
      rw [horder2] at hnlmem
      exact (List.eraseIdx_sublist _ _).mem hnlmem
    have hnlnefm : nl ≠ fm.note := by
      intro h
      rw [horder2] at hnlmem
      exact hnotmem (h ▸ hnlmem)
    have hnlne : nl ≠ mx := heq ▸ hnlnefm
    have hnllt : nl < mx :=
      lt_of_le_of_ne (le_getLast_of_sorted hs hlast nl hnlmem0) hnlne
    rcases hsome nl hnlmem0 with ⟨q, hq, hqn, _⟩
    have hcur : (g.trigger fm).maxMsg = some q := by
      rw [maxMsg_of_getLast? hnl, trigger_note_info_off hoff]
      simp [hnlnefm, hq]
    have hpq : p ≠ q := by
      intro h
      rw [h] at hpn
      rw [hqn] at hpn
      omega
    refine ⟨q, by rw [chokeTrigger_fst]; exact hcur, by rw [hqn]; exact hnllt, ?_⟩
    rw [chokeTrigger_snd, hcur, hp]
    simp [hpq]
  · intro p hord hp
    have hm : fm.note ∈ g.note_order := by
      rw [hord]; exact List.mem_cons_self _ _
    have horder2 : (g.trigger fm).note_order = [] := by
      rw [trigger_off_order_of_mem hoff hs hm, hord]
      simp [bisectLeft]
    have hcur : (g.trigger fm).maxMsg = none := by
      simp [ChokeGroup.maxMsg, horder2]
    rw [chokeTrigger_snd, hcur, hp]
  · intro hnm
    have horder2 : (g.trigger fm).note_order = g.note_order :=
      trigger_off_order_of_not_mem hoff hnm
    cases hl : g.note_order.getLast? with
    | none =>
      have hprev : g.maxMsg = none := by simp [ChokeGroup.maxMsg, hl]
      have hcur : (g.trigger fm).maxMsg = none := by
        simp [ChokeGroup.maxMsg, horder2, hl]
      rw [chokeTrigger_snd, hcur, hprev]
    | some mx =>
      have hmxmem := mem_of_getLast?_eq_some hl
      rcases hsome mx hmxmem with ⟨pp, hpp, _, _⟩
      have hprev : g.maxMsg = some pp := by
        rw [maxMsg_of_getLast? hl]; exact hpp
      have hmxne : mx ≠ fm.note := fun h => hnm (h ▸ hmxmem)
      have hcur : (g.trigger fm).maxMsg = some pp := by
        have hgl : (g.trigger fm).note_order.getLast? = some mx := by
          rw [horder2]; exact hl
        rw [maxMsg_of_getLast? hgl, trigger_note_info_off hoff]
        simp [hmxne, hpp]
      rw [chokeTrigger_snd, hcur, hprev]
      simp

/-- A choke group holding only note 41. -/
def gHeld41 : ChokeGroup := ⟨[41], fun n => if n = 41 then some mOn41 else none⟩

theorem gHeld41_wf : gHeld41.wf := by
  refine ⟨by decide, ?_, ?_⟩
  · intro n hn
    simp [gHeld41] at hn
    subst hn
    exact ⟨mOn41, by decide, by decide, by decide⟩
  · intro n hn
    simp [gHeld41] at hn
    simp [gHeld41, hn]

theorem gHeld_wf : gHeld.wf := by
  refine ⟨by decide, ?_, ?_⟩
  · intro n hn
    simp [gHeld] at hn
    rcases hn with h | h <;> subst h
    · exact ⟨mOn41, by decide, by decide, by decide⟩
    · exact ⟨mOn43, by decide, by decide, by decide⟩
  · intro n hn
    simp [gHeld] at hn
    simp [gHeld, hn.1, hn.2]

/-- Witness for C1: with note 41 held, a note-on for 43 (hammer-on)
emits the new note-on followed by the note-off for 41. -/
theorem choke_note_on_rule_witness :
    gHeld41.wf ∧ (0 : Int) < mOn43.msg.velocity ∧
    (chokeTrigger gHeld41 mOn43).2 = [mOn43, mOn41.makeNoteOffMsg] := by
  refine ⟨gHeld41_wf, by decide, ?_⟩
  have h := (choke_note_on_rule gHeld41 mOn43 gHeld41_wf (by decide)).2
    41 mOn41 (by decide) (by decide)
  exact h.1 (by decide)

/-- Witness for C2 (amended): with 41 and 43 held, a note-off for the
maximum 43 emits the note-on for the new maximum first and the
note-off for 43 second. -/
theorem choke_note_off_rule_witness :
    gHeld.wf ∧ mOff43.msg.velocity = 0 ∧
    (∃ q, (chokeTrigger gHeld mOff43).1.maxMsg = some q ∧ q.note < 43 ∧
      (chokeTrigger gHeld mOff43).2 = [q, mOn43.makeNoteOffMsg]) :=
  ⟨gHeld_wf, by decide,
    (choke_note_off_rule gHeld mOff43 gHeld_wf (by decide)).1 43 mOn43
      (by decide) (by decide) (by decide) (by decide)⟩

/-! ## Claim C3: Tap-mode single-voice invariant -/

/-- The set of currently sounding notes after processing one emitted
message: a note-on starts its note sounding, a note-off silences it. -/
def soundingStep (s : Finset Int) (fm : FretboardMessage) : Finset Int :=
  if fm.isNoteOn then insert fm.msg.note s else s.erase fm.msg.note

/-- One trigger call on a string handled by the choke handler, paired
with the tracking of currently sounding notes on that string. -/
def chokeStep (st : ChokeGroup × Finset Int) (fm : FretboardMessage) :
    ChokeGroup × Finset Int :=
  ((chokeTrigger st.1 fm).1, (chokeTrigger st.1 fm).2.foldl soundingStep st.2)

/-- A whole sequence of trigger calls on one string, starting from the
empty group (as `ChokeNoteHandler.__init__` does) with no note sounding. -/
def chokeRun (msgs : List FretboardMessage) : ChokeGroup × Finset Int :=
  msgs.foldl chokeStep (ChokeGroup.empty, ∅)

/-- The set of notes allowed to sound: at most the current group maximum. -/
def maxNoteSet (g : ChokeGroup) : Finset Int :=
  match g.maxMsg with
  | some m => {m.msg.note}
  | none => ∅

theorem wf_empty : ChokeGroup.empty.wf := by
  refine ⟨by simp [ChokeGroup.empty], ?_, ?_⟩
  · intro n hn
    simp [ChokeGroup.empty] at hn
  · intro n _
    rfl

theorem soundingStep_noteOff (s : Finset Int) (fm : FretboardMessage)
    (h : ¬ fm.isNoteOn = true) : soundingStep s fm = s.erase fm.msg.note := by
  simp [soundingStep, h]

theorem soundingStep_noteOn (s : Finset Int) (fm : FretboardMessage)
    (h : fm.isNoteOn = true) : soundingStep s fm = insert fm.msg.note s := by
  simp [soundingStep, h]

theorem makeNoteOffMsg_not_noteOn (fm : FretboardMessage) :
    ¬ fm.makeNoteOffMsg.isNoteOn = true := by
  simp [FretboardMessage.makeNoteOffMsg, FretboardMessage.makeNoteMsg,
    FretboardMessage.isNoteOn, isNoteOnMsg]

theorem step_invariant {g : ChokeGroup} {s : Finset Int}
    (hwf : g.wf) (hsub : s ⊆ maxNoteSet g) (fm : FretboardMessage) :
    (chokeStep (g, s) fm).1.wf ∧
    (chokeStep (g, s) fm).2 ⊆ maxNoteSet (chokeStep (g, s) fm).1 := by
  have hwf' : (g.trigger fm).wf := wf_trigger hwf fm
  refine ⟨hwf', ?_⟩
  show ((chokeTrigger g fm).2.foldl soundingStep s) ⊆ maxNoteSet (g.trigger fm)
  rw [chokeTrigger_snd]
  cases hcur : (g.trigger fm).maxMsg with
  | none =>
    have hmax' : maxNoteSet (g.trigger fm) = ∅ := by simp [maxNoteSet, hcur]
    cases hprev : g.maxMsg with
    | none =>
      have hmax : maxNoteSet g = ∅ := by simp [maxNoteSet, hprev]
      simp only [List.foldl_nil]
      rw [hmax'] at *
      exact hmax ▸ hsub
    | some p =>
      have hmax : maxNoteSet g = {p.msg.note} := by simp [maxNoteSet, hprev]
      simp only [List.foldl_cons, List.foldl_nil]
      rw [soundingStep_noteOff s p.makeNoteOffMsg (makeNoteOffMsg_not_noteOn p)]
      rw [hmax']
      intro x hx
      rcases Finset.mem_erase.mp hx with ⟨hne, hxs⟩
      have := hmax ▸ hsub hxs
      rcases Finset.mem_singleton.mp this with h
      exact absurd (by simpa [FretboardMessage.makeNoteOffMsg,
        FretboardMessage.makeNoteMsg] using h) hne
  | some c =>
    have hcv : 0 < c.msg.velocity := maxMsg_velocity hwf' hcur
    have hcon : c.isNoteOn = true := by
      simp [FretboardMessage.isNoteOn, isNoteOnMsg, hcv]
    have hmax' : maxNoteSet (g.trigger fm) = {c.msg.note} := by
      simp [maxNoteSet, hcur]
    cases hprev : g.maxMsg with
    | none =>
      have hmax : maxNoteSet g = ∅ := by simp [maxNoteSet, hprev]
      simp only [List.foldl_cons, List.foldl_nil]
      rw [soundingStep_noteOn s c hcon, hmax']
      intro x hx
      rcases Finset.mem_insert.mp hx with h | h
      · exact Finset.mem_singleton.mpr h
      · exact absurd (hmax ▸ hsub h) (Finset.not_mem_empty x)
    | some p =>
      have hmax : maxNoteSet g = {p.msg.note} := by simp [maxNoteSet, hprev]
      by_cases hpc : p = c
      · simp only [if_pos hpc, List.foldl_nil]
        rw [hmax']
        intro x hx
        have := hmax ▸ hsub hx
        rw [Finset.mem_singleton] at this ⊢
        rw [this, hpc]
      · simp only [if_neg hpc, List.foldl_cons, List.foldl_nil]
        rw [soundingStep_noteOn s c hcon,
          soundingStep_noteOff _ p.makeNoteOffMsg (makeNoteOffMsg_not_noteOn p),
          hmax']
        intro x hx
        rcases Finset.mem_erase.mp hx with ⟨hne, hxs⟩
        rcases Finset.mem_insert.mp hxs with h | h
        · exact Finset.mem_singleton.mpr h
        · have := hmax ▸ hsub h
          rw [Finset.mem_singleton] at this
          exact absurd (by simpa [FretboardMessage.makeNoteOffMsg,
            FretboardMessage.makeNoteMsg] using this) hne

theorem run_invariant (msgs : List FretboardMessage)
    (st : ChokeGroup × Finset Int)
    (h : st.1.wf ∧ st.2 ⊆ maxNoteSet st.1) :
    (msgs.foldl chokeStep st).1.wf ∧
    (msgs.foldl chokeStep st).2 ⊆ maxNoteSet (msgs.foldl chokeStep st).1 := by
  induction msgs generalizing st with
  | nil => simpa using h
  | cons m ms ih =>
    rw [List.foldl_cons]
    rcases st with ⟨g, s⟩
    exact ih _ (step_invariant h.1 h.2 m)

/-- **C3.** Tap-mode single-voice invariant (`ChokeNoteHandler.trigger`,
fretboard.py): for every sequence of trigger calls handled by the
choke note handler on a given string, after each call the set of notes
that have received a note-on without a subsequent note-off has size 0
or 1. -/
theorem choke_single_voice (msgs : List FretboardMessage) :
    (chokeRun msgs).2.card ≤ 1 := by
  have h := run_invariant msgs (ChokeGroup.empty, ∅)
    ⟨wf_empty, by simp [maxNoteSet, ChokeGroup.maxMsg, ChokeGroup.empty]⟩
  have hcard := Finset.card_le_card h.2
  have hmax : (maxNoteSet (chokeRun msgs).1).card ≤ 1 := by
    rw [maxNoteSet]
    cases (chokeRun msgs).1.maxMsg with
    | none => simp
    | some m => simp
  calc (chokeRun msgs).2.card ≤ _ := hcard
    _ ≤ 1 := hmax

/-! ## NoteTracker and Fretboard (`fretboard.py`) -/

/-- `fretboard.NoteEffects`, parametric in the message type: `record_fx`
returns the `FretboardMessage`s it was given, while `clean_fx` builds raw
`FrozenMessage`s (the Python dataclass is dynamically typed over both). -/
structure NoteEffects (μ : Type) where
  vis : List (StringPos × VisState)
  msgs : List μ
  deriving DecidableEq, Repr

/-- `NoteEffects.empty`. -/
def NoteEffects.empty {μ : Type} : NoteEffects μ := ⟨[], []⟩

/-- `fretboard.NoteTracker`: the bound `ChannelMapper.map_channel`, the
per-channel note sets (`Dict[int, Set[int]]`, sets as duplicate-free
lists) and the per-position visibility map. -/
structure NoteTracker where
  chanMapper : StringPos → Option Int
  notemap : List (Int × List Int)
  vis : List (StringPos × VisState)

/-- `NoteTracker.get_vis`, with the missing-key default `Off`.  (The
Python method also caches the default back into the dict; an `Off`
entry reads the same as a missing one everywhere, and `clean_fx`
filters `Off` entries out, so the cache write is dropped here.) -/
def NoteTracker.getVis (t : NoteTracker) (sp : StringPos) : VisState :=
  (alistLookup t.vis sp).getD VisState.Off

/-- `NoteTracker.is_enabled`. -/
def NoteTracker.isEnabled (t : NoteTracker) (sp : StringPos) : Bool :=
  (t.getVis sp).enabled

/-- `NoteTracker._record_note`: a note-on inserts the note into its
channel's set (creating the set if absent); a note-off removes it via
Python `set.remove`, which raises `KeyError` when the note is absent
from an existing set; other messages are ignored. -/
def recordNoteMap (notemap : List (Int × List Int)) (m : Msg) :
    Except PyErr (List (Int × List Int)) :=
  if isNoteOnMsg m then
    match alistLookup notemap m.channel with
    | none => .ok (alistSet notemap m.channel [m.note])
    | some notes =>
        .ok (alistSet notemap m.channel
          (if m.note ∈ notes then notes else notes ++ [m.note]))
  else if isNoteOffMsg m then
    match alistLookup notemap m.channel with
    | none => .ok notemap
    | some notes =>
        if m.note ∈ notes then
          .ok (alistSet notemap m.channel (notes.erase m.note))
        else .error .keyError
  else .ok notemap

/-- The inner `for equiv in msg.equivs` loop of `NoteTracker.record_fx`:
skips the message's own position, marks equivalents dirty, and wires
`OnDisabled` / `OnLinked` / `Off` visibility for mapped, non-primary
equivalents.  (`dirty` is a Python set; only membership in it is ever
used, so it is kept as an append-only list.) -/
def visEquivLoop (mapper : StringPos → Option Int) (msg : FretboardMessage)
    (active : Bool) :
    List StringPos → List (StringPos × VisState) → List StringPos →
    List (StringPos × VisState) × List StringPos
  | [], vis, dirty => (vis, dirty)
  | equiv :: rest, vis, dirty =>
    if equiv = msg.str_pos then visEquivLoop mapper msg active rest vis dirty
    else
      let dirty' := dirty ++ [equiv]
      match mapper equiv with
      | none => visEquivLoop mapper msg active rest vis dirty'
      | some channel =>
        let curVis := (alistLookup vis equiv).getD VisState.Off
        if curVis.primary then visEquivLoop mapper msg active rest vis dirty'
        else
          let ws := if active then
              (if channel = msg.channel then VisState.OnDisabled
               else VisState.OnLinked)
            else VisState.Off
          visEquivLoop mapper msg active rest (alistSet vis equiv ws) dirty'

/-- One iteration of the `for msg in msgs` loop of
`NoteTracker.record_fx` over the running `(vis, dirty, notemap)` state. -/
def recordMsg (mapper : StringPos → Option Int)
    (st : List (StringPos × VisState) × List StringPos × List (Int × List Int))
    (msg : FretboardMessage) :
    Except PyErr
      (List (StringPos × VisState) × List StringPos × List (Int × List Int)) :=
  let active := msg.isNoteOn
  let vs := if active then VisState.OnPrimary else VisState.Off
  let vis0 := alistSet st.1 msg.str_pos vs
  let dirty0 := st.2.1 ++ [msg.str_pos]
  let vd := visEquivLoop mapper msg active msg.equivs vis0 dirty0
  match recordNoteMap st.2.2 msg.msg with
  | .error e => .error e
  | .ok nm => .ok (vd.1, vd.2, nm)

/-- The `for msg in msgs` loop of `NoteTracker.record_fx`, with Python
exceptions aborting the call. -/
def recordFxGo (mapper : StringPos → Option Int) :
    List FretboardMessage →
    List (StringPos × VisState) × List StringPos × List (Int × List Int) →
    Except PyErr
      (List (StringPos × VisState) × List StringPos × List (Int × List Int))
  | [], st => .ok st
  | msg :: rest, st =>
    match recordMsg mapper st msg with
    | .error e => .error e
    | .ok st' => recordFxGo mapper rest st'

/-- `NoteTracker.record_fx`: runs the loop and returns the effects whose
visibility map is the tracker's map restricted to the dirty positions
and whose messages are exactly the input messages. -/
def NoteTracker.recordFx (t : NoteTracker) (msgs : List FretboardMessage) :
    Except PyErr (NoteTracker × NoteEffects FretboardMessage) :=
  match recordFxGo t.chanMapper msgs (t.vis, [], t.notemap) with
  | .error e => .error e
  | .ok st =>
      .ok ({ t with vis := st.1, notemap := st.2.2 },
        ⟨st.1.filter (fun p => p.1 ∈ st.2.1), msgs⟩)

/-- `NoteTracker.clean_fx`: a note-off (`note_on` with velocity 0) for
every tracked (channel, note) pair, and `Off` for every position whose
visibility is not already `Off`. -/
def NoteTracker.cleanFx (t : NoteTracker) : NoteEffects Msg :=
  ⟨(t.vis.filter (fun p => ¬ p.2 = VisState.Off)).map
      (fun p => (p.1, VisState.Off)),
   t.notemap.flatMap (fun p => p.2.map (fun note => (⟨p.1, note, 0⟩ : Msg)))⟩

/-- The play-mode strategies (`PolyNoteHandler`, `MonoNoteHandler`,
`ChokeNoteHandler`) with their mutable state. -/
inductive HandlerState where
  | poly : HandlerState
  | mono (lastOff : Option FretboardMessage) : HandlerState
  | tap (fingered : List ChokeGroup) : HandlerState

/-- Python list indexing (`l[i]`), which admits negative indices from
the end; out of range means `IndexError`. -/
def pyListGet {α : Type} (l : List α) (i : Int) : Option α :=
  if 0 ≤ i then l[i.toNat]?
  else if -i ≤ (l.length : Int) then l[l.length - (-i).toNat]? else none

/-- In-place update of the group a `ChokeNoteHandler` holds for a string
(the Python code mutates the list element). -/
def pyListSet {α : Type} (l : List α) (i : Int) (a : α) : List α :=
  if 0 ≤ i then l.set i.toNat a else l.set (l.length - (-i).toNat) a

/-- `NoteHandler.trigger` dispatch: `Poly` is the identity emitter,
`Mono` replays the pending note-off, `Tap` runs the per-string choke
group (`self._fingered[str_index]`, an `IndexError` when out of range). -/
def handlerTrigger : HandlerState → FretboardMessage →
    Except PyErr (HandlerState × List FretboardMessage)
  | .poly, fm => .ok (.poly, [fm])
  | .mono lastOff, fm =>
    if fm.isNoteOff then
      match lastOff with
      | some lo =>
        if lo = fm then .ok (.mono none, [lo]) else .ok (.mono (some lo), [])
      | none => .ok (.mono none, [])
    else
      let pre := match lastOff with | some lo => [lo] | none => []
      .ok (.mono (some fm.makeNoteOffMsg), pre ++ [fm])
  | .tap fingered, fm =>
    match pyListGet fingered fm.str_pos.str_index with
    | none => .error .indexError
    | some g =>
      .ok (.tap (pyListSet fingered fm.str_pos.str_index (chokeTrigger g fm).1),
        (chokeTrigger g fm).2)

/-- `fretboard.Fretboard`: the `min_velocity` from its config together
with its mapper, tuner, tracker and note handler.  The mapper and
tuner objects enter as their bound lookup functions
(`ChannelMapper.map_channel`, `Tuner.get_note_group`). -/
structure Fretboard where
  minVelocity : Int
  mapper : StringPos → Option Int
  tuner : StringPos → Option NoteGroup
  tracker : NoteTracker
  handler : HandlerState

/-- `Fretboard._clamp_velocity`. -/
def clampVelocity (minVelocity velocity : Int) : Int :=
  if velocity = 0 then 0 else max velocity minVelocity

/-- `Fretboard.trigger`. -/
def Fretboard.trigger (fb : Fretboard) (strPos : StringPos) (velocity : Int) :
    Except PyErr (Fretboard × NoteEffects FretboardMessage) :=
  if fb.tracker.isEnabled strPos then
    match fb.tuner strPos, fb.mapper strPos with
    | some noteGroup, some channel =>
      let v := clampVelocity fb.minVelocity velocity
      let fretMsg : FretboardMessage :=
        ⟨strPos, noteGroup.equivs, ⟨channel, noteGroup.note, v⟩⟩
      match handlerTrigger fb.handler fretMsg with
      | .error e => .error e
      | .ok hout =>
        match fb.tracker.recordFx hout.2 with
        | .error e => .error e
        | .ok tfx => .ok ({ fb with handler := hout.1, tracker := tfx.1 }, tfx.2)
    | _, _ => .ok (fb, NoteEffects.empty)
  else .ok (fb, NoteEffects.empty)

/-- `Fretboard.handle_mapped_config`: returns the cleanup effects of the
old tracker and replaces mapper, tracker, tuner and handler.  The
replacements (`create_chan_mapper`, `create_tuner`, `create_handler`)
are built from the new config and the channel constants
(`MIDI_BASE_CHANNEL` etc., which no constants file defines), so they
enter here as parameters. -/
def Fretboard.handleMappedConfig (fb : Fretboard)
    (newMinVelocity : Int) (newMapper : StringPos → Option Int)
    (newTuner : StringPos → Option NoteGroup) (newHandler : HandlerState) :
    NoteEffects Msg × Fretboard :=
  (fb.tracker.cleanFx,
   { minVelocity := newMinVelocity, mapper := newMapper, tuner := newTuner,
     tracker := ⟨newMapper, [], []⟩, handler := newHandler })

/-! ## Claim C4: config-change cleanup -/

/-- Whether note `n` is currently tracked on channel `c`. -/
def trackedB (nm : List (Int × List Int)) (c n : Int) : Bool :=
  match alistLookup nm c with
  | some notes => n ∈ notes
  | none => false

/-- Total number of tracked notes across all channels. -/
def totalTracked (nm : List (Int × List Int)) : Nat :=
  (nm.map (fun p => p.2.length)).sum

theorem alistLookup_eq_none {κ α : Type} [DecidableEq κ]
    (l : List (κ × α)) (k : κ) (h : k ∉ l.map Prod.fst) :
    alistLookup l k = none := by
  induction l with
  | nil => rfl
  | cons hd tl ih =>
    have h1 : hd.1 ≠ k := by
      intro he
      exact h (by simp [he])
    have h2 : k ∉ tl.map Prod.fst := fun hm => h (by simp [hm])
    rcases hd with ⟨k', v⟩
    simp only [alistLookup, if_neg h1]
    exact ih h2

theorem cleanFx_count (nm : List (Int × List Int))
    (hkeys : (nm.map Prod.fst).Nodup) (hnotes : ∀ p ∈ nm, p.2.Nodup)
    (c n : Int) :
    (nm.flatMap (fun p => p.2.map (fun note => (⟨p.1, note, 0⟩ : Msg)))).count
        ⟨c, n, 0⟩ = if trackedB nm c n then 1 else 0 := by
  induction nm with
  | nil => simp [trackedB, alistLookup]
  | cons hd tl ih =>
    rcases hd with ⟨c', notes⟩
    have hkeys' : (tl.map Prod.fst).Nodup := (List.nodup_cons.mp hkeys).2
    have hc'tl : c' ∉ tl.map Prod.fst := (List.nodup_cons.mp hkeys).1
    have hnotes' : ∀ p ∈ tl, p.2.Nodup := fun p hp =>
      hnotes p (List.mem_cons_of_mem _ hp)
    have hnd : notes.Nodup := hnotes (c', notes) (List.mem_cons_self _ _)
    rw [List.flatMap_cons, List.count_append, ih hkeys' hnotes']
    by_cases hcc : c' = c
    · subst hcc
      have hinj : Function.Injective (fun note => (⟨c', note, 0⟩ : Msg)) := by
        intro a b h
        cases h
        rfl
      have htl : trackedB tl c' n = false := by
        simp [trackedB, alistLookup_eq_none tl c' hc'tl]
      rw [htl]
      have hhd : trackedB ((c', notes) :: tl) c' n = decide (n ∈ notes) := by
        simp [trackedB, alistLookup]
      rw [hhd, List.count_map_of_injective _ _ hinj]
      by_cases hmem : n ∈ notes
      · simp [hmem, List.count_eq_one_of_mem hnd hmem]
      · simp [hmem, List.count_eq_zero_of_not_mem hmem]
    · have hhead : (notes.map (fun note => (⟨c', note, 0⟩ : Msg))).count
          ⟨c, n, 0⟩ = 0 := by
        refine List.count_eq_zero_of_not_mem ?_
        intro hm
        rcases List.mem_map.mp hm with ⟨note, _, he⟩
        cases he
        exact hcc rfl
      have hskip : trackedB ((c', notes) :: tl) c n = trackedB tl c n := by
        simp [trackedB, alistLookup, hcc]
      rw [hhead, hskip]
      omega

theorem cleanFx_length (nm : List (Int × List Int)) :
    (nm.flatMap (fun p => p.2.map (fun note => (⟨p.1, note, 0⟩ : Msg)))).length
      = totalTracked nm := by
  induction nm with
  | nil => rfl
  | cons hd tl ih =>
    rw [List.flatMap_cons, List.length_append, ih]
    simp [totalTracked]

/-- **C4.** Config-change cleanup (`NoteTracker.clean_fx`,
`Fretboard.handle_mapped_config`, fretboard.py): handling a changed
config first returns effects whose outbound messages are exactly one
note-off (note-on with velocity 0) per (channel, note) currently held
in the tracker's per-channel note sets — their count equals the number
of tracked notes immediately prior — and whose visibility map sets
every string position whose `VisState` was not `Off` to `Off`. -/
theorem fretboard_config_change_cleanup (fb : Fretboard)
    (newMinVelocity : Int) (newMapper : StringPos → Option Int)
    (newTuner : StringPos → Option NoteGroup) (newHandler : HandlerState)
    (hkeys : (fb.tracker.notemap.map Prod.fst).Nodup)
    (hnotes : ∀ p ∈ fb.tracker.notemap, p.2.Nodup) :
    (∀ c n,
      ((fb.handleMappedConfig newMinVelocity newMapper newTuner newHandler).1).msgs.count
        ⟨c, n, 0⟩ = if trackedB fb.tracker.notemap c n then 1 else 0) ∧
    ((fb.handleMappedConfig newMinVelocity newMapper newTuner newHandler).1).msgs.length
        = totalTracked fb.tracker.notemap ∧
    (∀ p ∈ ((fb.handleMappedConfig newMinVelocity newMapper newTuner newHandler).1).vis,
      p.2 = VisState.Off) ∧
    (∀ sp, (∃ vs, (sp, vs) ∈
        ((fb.handleMappedConfig newMinVelocity newMapper newTuner newHandler).1).vis) ↔
      ∃ vs, (sp, vs) ∈ fb.tracker.vis ∧ vs ≠ VisState.Off) := by
  refine ⟨?_, ?_, ?_, ?_⟩
  · intro c n
    exact cleanFx_count fb.tracker.notemap hkeys hnotes c n
  · exact cleanFx_length fb.tracker.notemap
  · intro p hp
    rcases List.mem_map.mp hp with ⟨q, _, he⟩
    rw [← he]
  · intro sp
    constructor
    · rintro ⟨vs, hvs⟩
      rcases List.mem_map.mp hvs with ⟨q, hq, he⟩
      rcases List.mem_filter.mp hq with ⟨hqmem, hqoff⟩
      refine ⟨q.2, ?_, by simpa using hqoff⟩
      have h1 : q.1 = sp := by
        have := congrArg Prod.fst he
        simpa using this
      rw [← h1]
      exact hqmem
    · rintro ⟨vs, hmem, hoff⟩
      refine ⟨VisState.Off, List.mem_map.mpr ⟨(sp, vs), ?_, rfl⟩⟩
      exact List.mem_filter.mpr ⟨hmem, by simpa using hoff⟩

/-- Concrete tracker for the C4 witness: two channels holding notes
{40, 45} and {50}, one position lit `OnPrimary`. -/
def c4Tracker : NoteTracker :=
  ⟨fun _ => some 0, [(0, [40, 45]), (1, [50])],
   [(spA, VisState.OnPrimary), (spB, VisState.Off)]⟩

def c4Fretboard : Fretboard :=
  ⟨0, fun _ => some 0, fun _ => none, c4Tracker, .poly⟩

/-- Witness for C4 at a concrete fretboard with three tracked notes. -/
theorem fretboard_config_change_cleanup_witness :
    (c4Fretboard.tracker.notemap.map Prod.fst).Nodup ∧
    (∀ p ∈ c4Fretboard.tracker.notemap, p.2.Nodup) ∧
    ((∀ c n,
      ((c4Fretboard.handleMappedConfig 0 (fun _ => none) (fun _ => none) .poly).1).msgs.count
        ⟨c, n, 0⟩ = if trackedB c4Fretboard.tracker.notemap c n then 1 else 0) ∧
    ((c4Fretboard.handleMappedConfig 0 (fun _ => none) (fun _ => none) .poly).1).msgs.length
        = totalTracked c4Fretboard.tracker.notemap ∧
    (∀ p ∈ ((c4Fretboard.handleMappedConfig 0 (fun _ => none) (fun _ => none) .poly).1).vis,
      p.2 = VisState.Off) ∧
    (∀ sp, (∃ vs, (sp, vs) ∈
        ((c4Fretboard.handleMappedConfig 0 (fun _ => none) (fun _ => none) .poly).1).vis) ↔
      ∃ vs, (sp, vs) ∈ c4Fretboard.tracker.vis ∧ vs ≠ VisState.Off)) :=
  ⟨by decide, by decide,
    fretboard_config_change_cleanup c4Fretboard 0 (fun _ => none) (fun _ => none)
      .poly (by decide) (by decide)⟩

/-! ## Claims C7 and C10: velocity clamping and spurious note-offs -/

/-- **C7.** Velocity clamping (`Fretboard._clamp_velocity`,
`Fretboard.trigger`, fretboard.py), observed end-to-end in Poly mode
where the handler emits exactly the incoming event: a trigger with
nonzero incoming velocity `v` emits the note-on with velocity
`max v min_velocity`, and an incoming velocity of exactly 0 is
preserved as 0 (note-off), never raised to the floor. -/
theorem trigger_velocity_clamp (fb : Fretboard) (sp : StringPos)
    (ng : NoteGroup) (ch : Int)
    (hen : fb.tracker.isEnabled sp = true)
    (htun : fb.tuner sp = some ng)
    (hmap : fb.mapper sp = some ch)
    (hpoly : fb.handler = .poly) :
    (∀ v : Int, 0 < v → ∃ fb' vis, fb.trigger sp v =
      .ok (fb', ⟨vis, [⟨sp, ng.equivs, ⟨ch, ng.note, max v fb.minVelocity⟩⟩]⟩)) ∧
    (∀ notes, alistLookup fb.tracker.notemap ch = some notes →
      ng.note ∈ notes → ∃ fb' vis, fb.trigger sp 0 =
        .ok (fb', ⟨vis, [⟨sp, ng.equivs, ⟨ch, ng.note, 0⟩⟩]⟩)) := by
  constructor
  · intro v hv
    have hvne : ¬ v = 0 := by omega
    have hclamp : clampVelocity fb.minVelocity v = max v fb.minVelocity := by
      simp [clampVelocity, hvne]
    have hon : isNoteOnMsg ⟨ch, ng.note, max v fb.minVelocity⟩ = true := by
      simp [isNoteOnMsg]
      omega
    simp only [Fretboard.trigger, hen, if_true, htun, hmap, hpoly,
      handlerTrigger, hclamp, NoteTracker.recordFx, recordFxGo, recordMsg,
      recordNoteMap, hon, if_true]
    cases halist : alistLookup fb.tracker.notemap ch with
    | none => exact ⟨_, _, rfl⟩
    | some notes => exact ⟨_, _, rfl⟩
  · intro notes hnm hmem
    have hclamp : clampVelocity fb.minVelocity 0 = 0 := by
      simp [clampVelocity]
    have hon : isNoteOnMsg ⟨ch, ng.note, 0⟩ = false := by
      simp [isNoteOnMsg]
    have hoff : isNoteOffMsg ⟨ch, ng.note, 0⟩ = true := by
      simp [isNoteOffMsg]
    simp only [Fretboard.trigger, hen, if_true, htun, hmap, hpoly,
      handlerTrigger, hclamp, NoteTracker.recordFx, recordFxGo, recordMsg,
      recordNoteMap, hon, hoff, hnm, hmem, Bool.false_eq_true, if_false,
      if_true]
    exact ⟨_, _, rfl⟩

/-- Concrete fretboard for the C7 witness: `min_velocity` 40, note 40
on channel 0 already sounding, Poly mode (the spec's min-velocity
scenario). -/
def c7Fretboard : Fretboard :=
  ⟨40, fun _ => some 0, fun sp => some ⟨40, some sp, [sp]⟩,
   ⟨fun _ => some 0, [(0, [40])], []⟩, .poly⟩

/-- Witness for C7: velocity 5 is clamped up to the floor 40, velocity 0
passes through as a note-off. -/
theorem trigger_velocity_clamp_witness :
    c7Fretboard.tracker.isEnabled spA = true ∧
    c7Fretboard.tuner spA = some ⟨40, some spA, [spA]⟩ ∧
    c7Fretboard.mapper spA = some 0 ∧
    ((∀ v : Int, 0 < v → ∃ fb' vis, c7Fretboard.trigger spA v =
      .ok (fb', ⟨vis, [⟨spA, [spA], ⟨0, 40, max v c7Fretboard.minVelocity⟩⟩]⟩)) ∧
    (∀ notes, alistLookup c7Fretboard.tracker.notemap 0 = some notes →
      (40 : Int) ∈ notes → ∃ fb' vis, c7Fretboard.trigger spA 0 =
        .ok (fb', ⟨vis, [⟨spA, [spA], ⟨0, 40, 0⟩⟩]⟩))) :=
  ⟨by decide, by decide, by decide,
    trigger_velocity_clamp c7Fretboard spA ⟨40, some spA, [spA]⟩ 0
      (by decide) (by decide) (by decide) rfl⟩

/-- **C10.** Spurious note-off raises KeyError
(`NoteTracker._record_note`, `PolyNoteHandler.trigger`,
`Fretboard.trigger`, fretboard.py): in Poly play mode, a trigger with
velocity 0 whose resolved note is absent from the existing note set of
its mapped channel aborts with the `KeyError` of the unguarded
`set.remove`, instead of returning empty effects. -/
theorem poly_spurious_note_off_keyerror (fb : Fretboard) (sp : StringPos)
    (ng : NoteGroup) (ch : Int) (notes : List Int)
    (hen : fb.tracker.isEnabled sp = true)
    (htun : fb.tuner sp = some ng)
    (hmap : fb.mapper sp = some ch)
    (hpoly : fb.handler = .poly)
    (hnm : alistLookup fb.tracker.notemap ch = some notes)
    (hnotin : ng.note ∉ notes) :
    fb.trigger sp 0 = .error PyErr.keyError := by
  have hclamp : clampVelocity fb.minVelocity 0 = 0 := by
    simp [clampVelocity]
  have hon : isNoteOnMsg ⟨ch, ng.note, 0⟩ = false := by
    simp [isNoteOnMsg]
  have hoff : isNoteOffMsg ⟨ch, ng.note, 0⟩ = true := by
    simp [isNoteOffMsg]
  simp only [Fretboard.trigger, hen, if_true, htun, hmap, hpoly,
    handlerTrigger, hclamp, NoteTracker.recordFx, recordFxGo, recordMsg,
    recordNoteMap, hon, hoff, hnm, hnotin, Bool.false_eq_true, if_false,
    if_true]

/-- Concrete fretboard for the C10 witness: Poly mode, channel 0 tracked
with an empty note set, so a velocity-0 trigger for note 40 hits the
unguarded removal. -/
def c10Fretboard : Fretboard :=
  ⟨0, fun _ => some 0, fun sp => some ⟨40, some sp, [sp]⟩,
   ⟨fun _ => some 0, [(0, [])], []⟩, .poly⟩

/-- Witness for C10 at a concrete input. -/
theorem poly_spurious_note_off_keyerror_witness :
    c10Fretboard.tracker.isEnabled spA = true ∧
    alistLookup c10Fretboard.tracker.notemap 0 = some [] ∧
    (40 : Int) ∉ ([] : List Int) ∧
    c10Fretboard.trigger spA 0 = .error PyErr.keyError :=
  ⟨by decide, by decide, by decide,
    poly_spurious_note_off_keyerror c10Fretboard spA ⟨40, some spA, [spA]⟩ 0 []
      (by decide) (by decide) (by decide) rfl (by decide) (by decide)⟩

/-! ## Claim C5: viewport round-trip (`viewport.py`) -/

/-- `Viewport.str_pos_from_pad_pos`.  The current source is specialised
(by assertion) to six strings, `Orientation.Left` and zero offsets:
rows 1–6 are strings 0–5 with the column as fret; rows 0 and 7 map to
nothing. -/
def strPosFromPadPos (pos : Pos) : Option StringPos :=
  if pos.row = 0 ∨ pos.row = 7 then none
  else some ⟨pos.row - 1, pos.col⟩

/-- `Viewport.pad_pos_from_str_pos`: the inverse shift, performed with
no range check — the function returns a pad for every input. -/
def padPosFromStrPos (strPos : StringPos) : Option Pos :=
  some ⟨strPos.str_index + 1, strPos.fret⟩

/-- **C5, counterexample.**  For the out-of-range string position
(6, 0), `pad_pos_from_str_pos` returns pad (7, 0) instead of none, and
mapping that pad back yields none rather than the original string
position. -/
theorem viewport_roundtrip_counterexample :
    padPosFromStrPos ⟨6, 0⟩ = some ⟨7, 0⟩ ∧
    strPosFromPadPos ⟨7, 0⟩ = none := by
  constructor
  · decide
  · decide

/-- **C5 (amended).**  Viewport round-trip as implemented: whenever
`str_pos_from_pad_pos` returns a string position, mapping it back
returns the original pad, and pad rows 0 and 7 map to none in the
forward direction; the backward map performs no range check and never
returns none, and its round-trip holds exactly when the string index
is neither −1 nor 6 (the indices landing on pad rows 0 and 7). -/
theorem viewport_roundtrip (p : Pos) (sp : StringPos) :
    (∀ sp', strPosFromPadPos p = some sp' → padPosFromStrPos sp' = some p) ∧
    (∀ p', padPosFromStrPos sp = some p' →
      sp.str_index ≠ -1 → sp.str_index ≠ 6 → strPosFromPadPos p' = some sp) ∧
    (p.row = 0 ∨ p.row = 7 → strPosFromPadPos p = none) := by
  refine ⟨?_, ?_, ?_⟩
  · intro sp' h
    by_cases hr : p.row = 0 ∨ p.row = 7
    · simp [strPosFromPadPos, hr] at h
    · simp only [strPosFromPadPos, if_neg hr] at h
      cases h
      simp only [padPosFromStrPos, Option.some.injEq]
      congr 1
      omega
  · intro p' h h1 h6
    cases h
    have hr : ¬ (sp.str_index + 1 = 0 ∨ sp.str_index + 1 = 7) := by omega
    simp only [strPosFromPadPos, if_neg hr, Option.some.injEq]
    congr 1
    omega
  · intro hr
    simp [strPosFromPadPos, hr]

/-- Witness for C5 (amended) at pad (3, 2) ↔ string position (2, 2). -/
theorem viewport_roundtrip_witness :
    strPosFromPadPos ⟨3, 2⟩ = some ⟨2, 2⟩ ∧
    padPosFromStrPos ⟨2, 2⟩ = some ⟨3, 2⟩ :=
  ⟨by decide, (viewport_roundtrip ⟨3, 2⟩ ⟨2, 2⟩).1 ⟨2, 2⟩ (by decide)⟩

/-! ## Claim C6: knob decoding (`push.py`, `constants.py`) -/

/-- `constants.KnobCC`. -/
inductive KnobCC where
  | L0 | L1 | C0 | C1 | C2 | C3 | C4 | C5 | C6 | C7 | R0
  deriving DecidableEq, Repr

/-- The CC numbers of `constants.KnobCC`. -/
def KnobCC.value : KnobCC → Int
  | .L0 => 14
  | .L1 => 15
  | .C0 => 71
  | .C1 => 72
  | .C2 => 73
  | .C3 => 74
  | .C4 => 75
  | .C5 => 76
  | .C6 => 77
  | .C7 => 78
  | .R0 => 79

/-- `constants.KNOB_CC_VALUE_LOOKUP`, built as `make_enum_value_lookup`
does: each member's value maps to the member, in declaration order. -/
def KNOB_CC_VALUE_LOOKUP : List (Int × KnobCC) :=
  [KnobCC.L0, .L1, .C0, .C1, .C2, .C3, .C4, .C5, .C6, .C7, .R0].map
    (fun k => (k.value, k))

/-- `constants.KnobGroup`. -/
inductive KnobGroup where
  | Left | Center | Right
  deriving DecidableEq, Repr

/-- `constants.knob_group_and_offset`. -/
def knobGroupAndOffset (knob : KnobCC) : KnobGroup × Int :=
  if KnobCC.R0.value ≤ knob.value then
    (KnobGroup.Right, knob.value - KnobCC.R0.value)
  else if KnobCC.C0.value ≤ knob.value then
    (KnobGroup.Center, knob.value - KnobCC.C0.value)
  else
    (KnobGroup.Left, knob.value - KnobCC.L0.value)

/-- A raw `control_change` message (type tag implicit). -/
structure CCMsg where
  control : Int
  value : Int
  deriving DecidableEq, Repr

/-- `push.KnobEvent`. -/
structure KnobEvent where
  knob : KnobCC
  group : KnobGroup
  offset : Int
  clockwise : Bool
  deriving DecidableEq, Repr

/-- `push.KnobEvent.match` on a `control_change` message: looks the
control up in the knob table and decodes group, offset and
`clockwise = (value < 127)`. -/
def KnobEvent.matchCC (msg : CCMsg) : Option KnobEvent :=
  match alistLookup KNOB_CC_VALUE_LOOKUP msg.control with
  | none => none
  | some knob =>
    some ⟨knob, (knobGroupAndOffset knob).1, (knobGroupAndOffset knob).2,
      msg.value < 127⟩

/-- **C6, counterexample.**  For control 71 (a knob in the table) and
value 65 the decoder sets `clockwise = true` (since 65 < 127), though
the claim `clockwise ↔ value < 64` requires it to be false. -/
theorem knob_clockwise_counterexample :
    (KnobEvent.matchCC ⟨71, 65⟩).map KnobEvent.clockwise = some true ∧
    ¬ (65 : Int) < 64 := by
  constructor
  · decide
  · decide

/-- **C6 (amended).**  Knob decoding: for every control-change message
whose control number is in the knob table, the decoder produces a
`KnobEvent` whose clockwise flag is true exactly when the message
value is less than 127 (only value 127 is a non-clockwise tick), along
with the `knob_group_and_offset` decomposition. -/
theorem knob_decode (msg : CCMsg) (knob : KnobCC)
    (h : alistLookup KNOB_CC_VALUE_LOOKUP msg.control = some knob) :
    KnobEvent.matchCC msg = some ⟨knob, (knobGroupAndOffset knob).1,
      (knobGroupAndOffset knob).2, msg.value < 127⟩ := by
  simp [KnobEvent.matchCC, h]

/-- Witness for C6 (amended): control 72 decodes as center knob 1,
value 3 as a clockwise tick. -/
theorem knob_decode_witness :
    alistLookup KNOB_CC_VALUE_LOOKUP 72 = some KnobCC.C1 ∧
    KnobEvent.matchCC ⟨72, 3⟩ = some ⟨KnobCC.C1, KnobGroup.Center, 1, true⟩ := by
  refine ⟨by decide, ?_⟩
  have h := knob_decode ⟨72, 3⟩ KnobCC.C1 (by decide)
  rw [h]
  decide

/-! ## Claim C8: shadow diff driver (`shadow.py`) -/

/-- `color.Color`: a 24-bit RGB triple. -/
structure Color where
  red : Int
  green : Int
  blue : Int
  deriving DecidableEq, Repr

/-- Outbound messages of the pad diff pass (`pad_led_off`,
`pad_set_color` on the wrapped `PushOutput`). -/
inductive PadOutMsg where
  | ledOff (pos : Pos) : PadOutMsg
  | setColor (pos : Pos) (color : Color) : PadOutMsg
  deriving DecidableEq, Repr

/-- The loop of `PushShadow._emit_pads`: for each written pad, reads the
stored entry with the raising lookup `self._state.pads[pos]`, emits a
message only on change, and then either `del`etes the stored entry (new
value `None`) or overwrites it (new colour). -/
def emitPadsGo :
    List (Pos × Option Color) → List (Pos × Option Color) → List PadOutMsg →
    Except PyErr (List (Pos × Option Color) × List PadOutMsg)
  | stored, [], msgs => .ok (stored, msgs)
  | stored, (pos, newColor) :: rest, msgs =>
    match alistLookup stored pos with
    | none => .error .keyError
    | some oldColor =>
      if oldColor = newColor then emitPadsGo stored rest msgs
      else
        match newColor with
        | none => emitPadsGo (alistDel stored pos) rest (msgs ++ [.ledOff pos])
        | some c =>
            emitPadsGo (alistSet stored pos (some c)) rest
              (msgs ++ [.setColor pos c])

/-- `PushShadow._emit_pads`: diff the scope's written pads against the
stored state. -/
def emitPads (stored diff : List (Pos × Option Color)) :
    Except PyErr (List (Pos × Option Color) × List PadOutMsg) :=
  emitPadsGo stored diff []

/-- `PushState.reset` for the pad map: every grid position present,
mapped to `None`. -/
def padGridPositions : List Pos :=
  (List.range 8).flatMap
    (fun r => (List.range 8).map (fun c => (⟨(r : Int), (c : Int)⟩ : Pos)))

def initPads : List (Pos × Option Color) :=
  padGridPositions.map (fun p => (p, none))

/-- Stored pad state after the first scope writes red to pad (0, 0). -/
def c8Stored1 : List (Pos × Option Color) :=
  alistSet initPads ⟨0, 0⟩ (some ⟨255, 0, 0⟩)

/-- Stored pad state after the second scope writes `None` there: the
entry is deleted outright. -/
def c8Stored2 : List (Pos × Option Color) :=
  alistDel c8Stored1 ⟨0, 0⟩

/-- **C8.**  Shadow diff driver evaluated over three scopes on pad
(0, 0): writing a colour emits exactly one message and stores it;
repeating an identical colour write emits nothing; writing `None`
emits one LED-off but deletes the stored entry, so a scope repeating
that same `None` write raises `KeyError` from the stored-state lookup
instead of emitting nothing. -/
theorem shadow_emit_pads_keyerror :
    emitPads initPads [(⟨0, 0⟩, some ⟨255, 0, 0⟩)] =
      .ok (c8Stored1, [.setColor ⟨0, 0⟩ ⟨255, 0, 0⟩]) ∧
    emitPads c8Stored1 [(⟨0, 0⟩, some ⟨255, 0, 0⟩)] = .ok (c8Stored1, []) ∧
    emitPads c8Stored1 [(⟨0, 0⟩, none)] = .ok (c8Stored2, [.ledOff ⟨0, 0⟩]) ∧
    emitPads c8Stored2 [(⟨0, 0⟩, none)] = .error PyErr.keyError := by
  refine ⟨?_, ?_, ?_, ?_⟩
  · rfl
  · rfl
  · rfl
  · rfl

/-! ## Claim C9: knob accumulator over a choice range (`menu.py`) -/

/-- `config.Layout`. -/
inductive Layout where
  | Horiz | Vert
  deriving DecidableEq, Repr

/-- The Python `Dict[int, N]` lookup `options[i]` of `ChoiceValRange`
(options are keyed 0 .. length−1); a missing key raises `KeyError`. -/
def optionsGet {α : Type} (options : List α) (i : Int) : Option α :=
  if i < 0 then none else options[i.toNat]?

/-- `menu.ChoiceValRange.succ` as written: returns `None` whenever
`index < 0 or index < len(self.options) - 1`, and otherwise reads
`options[index + 1]`. -/
def choiceSucc {α : Type} (options : List α) (index : Int) :
    Except PyErr (Option (Int × α)) :=
  if index < 0 ∨ index < (options.length : Int) - 1 then .ok none
  else
    match optionsGet options (index + 1) with
    | some v => .ok (some (index + 1, v))
    | none => .error .keyError

/-- `menu.ChoiceValRange.pred`. -/
def choicePred {α : Type} (options : List α) (index : Int) :
    Except PyErr (Option (Int × α)) :=
  if index ≤ 0 ∨ (options.length : Int) ≤ index then .ok none
  else
    match optionsGet options (index - 1) with
    | some v => .ok (some (index - 1, v))
    | none => .error .keyError

/-- `menu.KnobState`'s mutable data: accumulator, index and value. -/
structure KnobStateData (α : Type) where
  accum : Int
  index : Int
  val : α
  deriving DecidableEq, Repr

/-- `menu.KnobState.accumulate` for a knob bound to a `ChoiceValRange`:
integrates the tick into the accumulator; at ±sensitivity steps the
index through `pred`/`succ` (clamping the accumulator on `None`), and
applies the lens setter to produce a new config exactly when the value
changed.  (Python `%` on a positive sensitivity matches `Int.emod`.) -/
def accumulate {γ α : Type} (sensitivity : Int) (options : List α)
    (lensSet : γ → α → γ) (st : KnobStateData α) (config : γ) (dif : Int) :
    Except PyErr (KnobStateData α × Option γ) :=
  let newAccum := st.accum + dif
  if newAccum ≤ -sensitivity then
    match choicePred options st.index with
    | .error e => .error e
    | .ok none => .ok ({ st with accum := -sensitivity }, none)
    | .ok (some (i, v)) =>
        .ok (⟨newAccum % sensitivity, i, v⟩, some (lensSet config v))
  else if sensitivity ≤ newAccum then
    match choiceSucc options st.index with
    | .error e => .error e
    | .ok none => .ok ({ st with accum := sensitivity }, none)
    | .ok (some (i, v)) =>
        .ok (⟨newAccum % sensitivity, i, v⟩, some (lensSet config v))
  else .ok ({ st with accum := newAccum }, none)

/-- The Layout knob's options, `[v for v in Layout]` in
`default_menu_layout` (sensitivity 4). -/
def layoutOptions : List Layout := [Layout.Horiz, Layout.Vert]

/-- **C9.**  Knob accumulator over a choice range, evaluated on the
Layout knob (two options, sensitivity 4).  `ChoiceValRange.succ`'s
guard `index < 0 or index < len(options) - 1` is inverted: at index 0
it returns `None` although the next choice `Vert` exists, so when the
accumulated ticks reach +4 the accumulator clamps and no new config is
produced; at the end of the range (index 1) `succ` raises `KeyError`
instead of clamping; `pred` behaves correctly by contrast. -/
theorem knob_choice_succ_bug :
    choiceSucc layoutOptions 0 = .ok none ∧
    choiceSucc layoutOptions 1 = .error PyErr.keyError ∧
    choicePred layoutOptions 1 = .ok (some (0, Layout.Horiz)) ∧
    accumulate 4 layoutOptions (fun (_ : Layout) v => v)
        ⟨3, 0, Layout.Horiz⟩ Layout.Horiz 1
      = .ok (⟨4, 0, Layout.Horiz⟩, none) := by
  refine ⟨?_, ?_, ?_, ?_⟩
  · rfl
  · rfl
  · rfl
  · rfl

end Pushpluck
